import Mathlib

/-!
Verification of the `module_6` asynchronous ingestion worker: the scraper
and task handlers in `worker/consumer.py`, the shared extractor in
`worker/etl/incremental_scraper.py`, and the sink operations they issue.
Python functions are shallowly embedded as executable Lean definitions;
SQL statements are embedded by their PostgreSQL semantics, documented at
each definition.
-/

/-- Python string `<` on lists of characters: strict lexicographic order on
Unicode code points.  This is the comparison used by `url > (max_url or "")`
in `handle_scrape_new_data` (Python compares `str` values code point by
code point). -/
def pyLt : List Char → List Char → Bool
  | [], [] => false
  | [], _ :: _ => true
  | _ :: _, [] => false
  | c :: cs, d :: ds => if c < d then true else if d < c then false else pyLt cs ds

/-- Python `s < t` on strings. -/
def strLt (s t : String) : Bool := pyLt s.data t.data

/-- Python's whitespace class `\s` for ASCII text: space, tab, newline,
carriage return, vertical tab, form feed. -/
def pySpace (c : Char) : Bool :=
  c = ' ' || c = '\t' || c = '\n' || c = '\r' || c = '\x0b' || c = '\x0c'

/-- Python `str.strip()` (ASCII whitespace): drop leading and trailing
whitespace characters. -/
def pyStrip (s : String) : String :=
  String.mk (((s.data.dropWhile pySpace).reverse.dropWhile pySpace).reverse)

/-- Case-insensitive prefix test, modelling a `re.I` literal match at the
current position (Python lowercases both sides for ASCII letters). -/
def ciPrefixOf : List Char → List Char → Bool
  | [], _ => true
  | _ :: _, [] => false
  | p :: ps, c :: cs => (p.toLower = c.toLower) && ciPrefixOf ps cs

/-- Leftmost-match search: try the pattern matcher at every suffix of the
text, left to right, as `re.search` does. -/
def searchTails (f : List Char → Option α) : List Char → Option α
  | [] => f []
  | c :: cs =>
    match f (c :: cs) with
    | some r => some r
    | none => searchTails f cs

/-- Substring occurrence test (Python `pat in s`, case-sensitive). -/
def occursIn (pat : List Char) : List Char → Bool
  | [] => pat.isEmpty
  | c :: cs => pat.isPrefixOf (c :: cs) || occursIn pat cs

/-- Python `pat in s` on strings. -/
def containsSub (s pat : String) : Bool := occursIn pat.data s.data

/-- Alternatives of the decision regex `(Accepted|Rejected|Wait listed|Interview)`
in `_parse_decision`, in the order the alternation tries them. -/
def decisionAlts : List String := ["Accepted", "Rejected", "Wait listed", "Interview"]

/-- Try one alternation branch at the current position: on a case-insensitive
match, `group(1)` is the matched slice of the original text (original casing). -/
def tryAltAt (l : List Char) (alt : String) : Option String :=
  if ciPrefixOf alt.data l then some (String.mk (l.take alt.data.length)) else none

/-- The `re.search(r"(Accepted|Rejected|Wait listed|Interview)", text, re.I)`
call of `_parse_decision`: leftmost position wins, alternatives tried in
order at each position. -/
def searchDecision (text : String) : Option String :=
  searchTails (fun l => decisionAlts.findSome? (tryAltAt l)) text.data

/-- The `re.search(r"on\s*(.*)", text, re.I)` call of `_parse_decision`:
at the leftmost case-insensitive occurrence of `on`, skip whitespace
greedily, then capture up to the next newline (`.` does not match `\n`). -/
def tryOnAt (l : List Char) : Option String :=
  if ciPrefixOf ['o', 'n'] l then
    some (String.mk (((l.drop 2).dropWhile pySpace).takeWhile (fun c => c ≠ '\n')))
  else none

/-- Leftmost `on\s*(.*)` search over the whole text. -/
def searchOnDate (text : String) : Option String := searchTails tryOnAt text.data

/-- Embeds `_parse_decision` from `consumer.py`: returns the decision status
(`"Unknown"` when no alternative matches) and the optional date text. -/
def parse_decision (text : String) : String × Option String :=
  ((searchDecision text).getD "Unknown", searchOnDate text)

/-- Embeds `_determine_degree` from `consumer.py`. -/
def determine_degree (prog : String) : String :=
  if containsSub prog "PhD" then "PhD"
  else if containsSub prog "Masters" then "Masters"
  else "Other"

/-- Character class `[\d.]` used by the GPA and GRE-AW regexes. -/
def digitOrDot (c : Char) : Bool := c.isDigit || c = '.'

/-- Generic `KEY\s*(CLASS+)` matcher at the current position, used for the
`GPA`, `GRE`, `GRE V` and `GRE AW` regexes of `_parse_stats`: the key matches
case-insensitively, `\s*` is greedy (backtracking cannot help because the
whitespace class and the numeric classes are disjoint), and the capture is
the maximal run of class characters, which must be non-empty. -/
def tryKeyNum (key : String) (cls : Char → Bool) (l : List Char) : Option String :=
  if ciPrefixOf key.data l then
    let num := ((l.drop key.data.length).dropWhile pySpace).takeWhile cls
    if num.isEmpty then none else some (String.mk num)
  else none

/-- Leftmost `KEY\s*(CLASS+)` search over the whole text. -/
def searchKeyNum (key : String) (cls : Char → Bool) (text : String) : Option String :=
  searchTails (tryKeyNum key cls) text.data

/-- Alternatives of the term regex `(Fall|Spring|Summer|Winter)` in
`_parse_stats`. -/
def seasonAlts : List String := ["Fall", "Spring", "Summer", "Winter"]

/-- One position of the `(Fall|Spring|Summer|Winter)\s*(\d{4})` regex:
each season alternative is tried in order; after a season match, `\s*` then
exactly four digits must follow.  On success the result is
`group(1) + " " + group(2)` as assembled by `_parse_stats`. -/
def trySeasonAt (l : List Char) : Option String :=
  seasonAlts.findSome? (fun alt =>
    if ciPrefixOf alt.data l then
      let ds := ((l.drop alt.data.length).dropWhile pySpace).take 4
      if ds.length = 4 && ds.all Char.isDigit then
        some (String.mk (l.take alt.data.length) ++ " " ++ String.mk ds)
      else none
    else none)

/-- Leftmost term search over the whole text. -/
def searchTerm (text : String) : Option String := searchTails trySeasonAt text.data

/-- Result of `_parse_stats`: the optional fields the regex heuristics may
populate. -/
structure Stats where
  gpa : Option String
  greScore : Option String
  greV : Option String
  greAW : Option String
  usInt : Option String
  term : Option String
deriving Repr, DecidableEq

/-- Embeds `_parse_stats` from `consumer.py`: best-effort regex extraction of
GPA, GRE scores, nationality and term from concatenated row text.  The
nationality checks are case-sensitive substring tests, `International`
taking priority over `American`. -/
def parse_stats (txt : String) : Stats :=
  { gpa := searchKeyNum "GPA" digitOrDot txt
    greScore := searchKeyNum "GRE" Char.isDigit txt
    greV := searchKeyNum "GRE V" Char.isDigit txt
    greAW := searchKeyNum "GRE AW" digitOrDot txt
    usInt :=
      if containsSub txt "International" then some "International"
      else if containsSub txt "American" then some "American"
      else none
    term := searchTerm txt }

/-- The `re.sub(r"Report$", "", text)` step of the university field: drop one
trailing `Report`.  (The `$`-before-final-newline nuance of Python regexes is
outside the modelled domain: the cell text comes from `get_text(strip=True)`
and never ends in a newline.) -/
def stripReport (s : String) : String :=
  if "Report".data.isSuffixOf s.data then String.mk (s.data.take (s.data.length - 6)) else s

/-- Literal characters of the path pattern `/result/`. -/
def resultPat : List Char := ['/', 'r', 'e', 's', 'u', 'l', 't', '/']

/-- Match of the regex `/result/\d+` at the current position: the literal
path followed by at least one digit. -/
def resultAt (l : List Char) : Bool :=
  resultPat.isPrefixOf l &&
    (match l.drop 8 with
     | d :: _ => d.isDigit
     | [] => false)

/-- Does a predicate hold at some suffix of the text (an `re.search`-style
left-to-right scan)? -/
def anyTail (p : List Char → Bool) : List Char → Bool
  | [] => p []
  | c :: cs => p (c :: cs) || anyTail p cs

/-- The `re.compile(r"/result/\d+")` test used by `_scrape_new_records` in
`consumer.py`: the href contains `/result/` followed by a digit. -/
def hasResultPath (s : String) : Bool := anyTail resultAt s.data

/-- Characters of the pattern actually compiled by `_extract_entry_url` in
`incremental_scraper.py`.  Its source reads `re.compile(r"/result/\\d+")`: a
raw string, so the regex receives a double backslash, which the regex engine
interprets as one literal backslash followed by one or more letters `d`. -/
def resultPatLit : List Char := ['/', 'r', 'e', 's', 'u', 'l', 't', '/', '\\', 'd']

/-- The href test of `incremental_scraper._extract_entry_url`: true iff the
href contains the literal text `/result/\d`. -/
def hasResultPathLit (s : String) : Bool := occursIn resultPatLit s.data

/-- Origin-prefixing step shared by both extractors: a root-relative path is
prefixed with the site's origin, any other value passes through. -/
def withOrigin (path : String) : String :=
  if "/".data.isPrefixOf path.data then "https://www.thegradcafe.com" ++ path else path

/-- Embeds the anchor-extraction step of `_scrape_new_records` in
`consumer.py`: `row.find("a", href=re.compile(r"/result/\d+"))` scans the
row's anchors in document order and keeps the first whose href matches; a
found anchor always carries an href, so the `"href" in link.attrs` guard is
always satisfied. -/
def extract_entry_url (anchors : List String) : Option String :=
  (anchors.find? hasResultPath).map withOrigin

/-- Embeds `_extract_entry_url` from `incremental_scraper.py`, which differs
from the consumer's copy only in its compiled pattern (see
`resultPatLit`). -/
def extract_entry_url_scraper (anchors : List String) : Option String :=
  (anchors.find? hasResultPathLit).map withOrigin

/-- One `<tr>` of a fetched results table, abstracted to the projections the
worker reads: the stripped texts of its `<td>` cells, the hrefs of its
anchors in document order, `get_text(strip=True)` and
`get_text(" ", strip=True)` of the whole row. -/
structure Row where
  tds : List String
  anchors : List String
  textStrip : String
  textSpaced : String
deriving Repr, Inhabited, DecidableEq

/-- One Candidate Record as assembled by `_scrape_new_records`: the record
dict built per data row. -/
structure Record where
  university : String
  program : String
  degree : String
  status : String
  decisionDate : Option String
  date_added : String
  url : Option String
  comments : String
  term : Option String
  usInt : Option String
  gpa : Option String
  greScore : Option String
  greV : Option String
  greAW : Option String
deriving Repr, Inhabited, DecidableEq

/-- Embeds the record-dict construction of `_scrape_new_records` for the data
row at index `i` of `rows` (the row also reads its one or two following rows
for comments and stats text).  Out-of-range accesses cannot occur at the call
site because each read is guarded by the same bounds checks as the source. -/
def buildRecord (rows : List Row) (i : Nat) (row : Row) : Record :=
  let tds := row.tds
  let entry_url := extract_entry_url row.anchors
  let dd := parse_decision (tds.getD 3 "")
  let comments :=
    if i + 2 < rows.length && (rows.getD (i + 2) default).tds.length = 1 then
      String.mk ((rows.getD (i + 2) default).textStrip.data.take 500)
    else ""
  let statsText :=
    row.textSpaced
      ++ (if i + 1 < rows.length then " " ++ (rows.getD (i + 1) default).textSpaced else "")
      ++ (if i + 2 < rows.length then " " ++ (rows.getD (i + 2) default).textSpaced else "")
  let parsed := parse_stats statsText
  { university := pyStrip (stripReport (tds.getD 0 ""))
    program := tds.getD 1 ""
    degree := determine_degree (tds.getD 1 "")
    status := dd.1
    decisionDate := dd.2
    date_added := tds.getD 2 ""
    url := entry_url
    comments := comments
    term := parsed.term
    usInt := parsed.usInt
    gpa := parsed.gpa
    greScore := parsed.greScore
    greV := parsed.greV
    greAW := parsed.greAW }

/-- The stop test `entry_url and entry_url in existing_urls` of
`_scrape_new_records`: the url must be truthy (non-null, non-empty) and a
member of the existing-identifier set. -/
def urlSeen : Option String → List String → Bool
  | none, _ => false
  | some u, existing => decide (u ≠ "") && existing.contains u

/-- Inner row loop of `_scrape_new_records` over the remaining rows, with `i`
the index of the current row within the full `rows` list (the record builder
reads the following rows through `rows` and `i`): rows with fewer than four
cells are skipped; a truthy url found in the existing set stops the loop
before yielding that row's record; every other data row yields its record.
Returns the yielded records and the stop flag. -/
def processRowsAux (existing : List String) (rows : List Row) :
    Nat → List Row → List Record × Bool
  | _, [] => ([], false)
  | i, row :: rest =>
    if row.tds.length < 4 then processRowsAux existing rows (i + 1) rest
    else if urlSeen (extract_entry_url row.anchors) existing then ([], true)
    else
      let r := processRowsAux existing rows (i + 1) rest
      (buildRecord rows i row :: r.1, r.2)

/-- Embeds the inner row loop of `_scrape_new_records` starting at row index
`i` (the source starts at 1, skipping the header row). -/
def processRowsFrom (existing : List String) (rows : List Row) (i : Nat) :
    List Record × Bool :=
  processRowsAux existing rows i (rows.drop i)

/-- Outcome of fetching one page, as the scan loop distinguishes them: the
fetch raised, the page parsed but held no `<table>`, or a table with its
`<tr>` rows. -/
inductive Page where
  | fetchFail : Page
  | noTable : Page
  | table : List Row → Page
deriving Repr, DecidableEq

/-- Does the page carry a results table? -/
def Page.isTable : Page → Bool
  | .table _ => true
  | _ => false

/-- Embeds the page loop of `_scrape_new_records` from page number `pageNum`
with `fuel` loop iterations left (`fuel = max_pages` at entry): a failed
fetch or a missing table breaks the loop, a stop flag breaks after keeping
the rows yielded before the seen record, otherwise the page's records are
collected and the next page is fetched.  Returns the collected records and
the number of pages fetched.  (The one-second politeness sleep between
fetches has no effect on the computed values and is not modelled.) -/
def scanFrom (existing : List String) (fetch : Nat → Page) (pageNum : Nat) :
    Nat → List Record × Nat
  | 0 => ([], 0)
  | fuel + 1 =>
    match fetch pageNum with
    | .fetchFail => ([], 1)
    | .noTable => ([], 1)
    | .table rows =>
      let page := processRowsFrom existing rows 1
      if page.2 then (page.1, 1)
      else
        let rest := scanFrom existing fetch (pageNum + 1) fuel
        (page.1 ++ rest.1, rest.2 + 1)

/-- Embeds `_scrape_new_records(existing_urls, max_pages)` from `consumer.py`:
pages are fetched from number 1 up to at most `max_pages`.  The first
component is the returned record list; the second counts performed fetches. -/
def scrape_new_records (existing : List String) (fetch : Nat → Page)
    (max_pages : Nat) : List Record × Nat :=
  scanFrom existing fetch 1 max_pages

/-- Records a single page contributes when no existing identifier stops the
row loop (the full parse of its data rows). -/
def pageRecs : Page → List Record
  | .table rows => (processRowsFrom [] rows 1).1
  | _ => []

/-- Records of `n` consecutive listing pages starting at page `start`, in
listing order, with no stopping. -/
def listingRecsFrom (fetch : Nat → Page) (start : Nat) : Nat → List Record
  | 0 => []
  | n + 1 => pageRecs (fetch start) ++ listingRecsFrom fetch (start + 1) n

/-- Records of listing pages `1 .. n`, in listing order, with no stopping:
the flattened listing whose positions the stop-on-seen property speaks
about. -/
def listingRecs (fetch : Nat → Page) (n : Nat) : List Record :=
  listingRecsFrom fetch 1 n

/-- Would this record's identifier trigger the stop rule against the given
existing-identifier set? -/
def recSeen (existing : List String) (r : Record) : Bool := urlSeen r.url existing

/-- One row of the `applicants` table, with the sixteen columns the worker's
INSERT statement binds, in source order.  Scraped records never carry the two
LLM columns (`rec.get` returns `None` for them). -/
structure AppRow where
  program : String
  university : String
  degree : String
  status : String
  term : Option String
  usInt : Option String
  comments : String
  decisionDate : Option String
  dateAdded : String
  url : Option String
  gpa : Option String
  gre : Option String
  greV : Option String
  greAW : Option String
  llmProgram : Option String
  llmUniversity : Option String
deriving Repr, Inhabited, DecidableEq

/-- The parameter tuple the handler binds for one record: each column is the
corresponding `rec.get(...)` value, and the two LLM columns are absent from
scraped record dicts. -/
def recToRow (r : Record) : AppRow :=
  { program := r.program
    university := r.university
    degree := r.degree
    status := r.status
    term := r.term
    usInt := r.usInt
    comments := r.comments
    decisionDate := r.decisionDate
    dateAdded := r.date_added
    url := r.url
    gpa := r.gpa
    gre := r.greScore
    greV := r.greV
    greAW := r.greAW
    llmProgram := none
    llmUniversity := none }

/-- Durable state of the sink: the `applicants` table (insertion order) and
the `ingestion_watermarks` table as source/last_seen pairs. -/
structure DB where
  applicants : List AppRow
  watermarks : List (String × String)
deriving Repr, DecidableEq

/-- PostgreSQL semantics of the handler's
`INSERT INTO applicants ... ON CONFLICT (url) DO NOTHING` against the sink's
uniqueness constraint on `url` (the sink schema is the spec's external
collaborator): a row whose `url` equals an existing non-null `url` is
silently skipped, and a NULL `url` never conflicts because SQL NULLs are
never equal, so such rows always insert. -/
def insertApplicant (tbl : List AppRow) (row : AppRow) : List AppRow :=
  match row.url with
  | none => tbl ++ [row]
  | some u => if tbl.any (fun r => r.url == some u) then tbl else tbl ++ [row]

/-- Semantics of `SELECT last_seen FROM ingestion_watermarks WHERE source = %s`
(`source` is the primary key, so at most one row matches). -/
def getWatermark (wms : List (String × String)) (src : String) : Option String :=
  (wms.find? (fun p => p.1 == src)).map (fun p => p.2)

/-- Semantics of the handler's watermark upsert
(`INSERT ... ON CONFLICT (source) DO UPDATE SET last_seen = EXCLUDED.last_seen`):
update the unique row keyed by the source if present, else append a new
row.  The `updated_at = now()` column is a timestamp with no bearing on the
verified values and is not modelled. -/
def upsertWatermark : List (String × String) → String → String → List (String × String)
  | [], src, v => [(src, v)]
  | p :: rest, src, v =>
    if p.1 == src then (p.1, v) :: rest else p :: upsertWatermark rest src v

/-- Descending insertion for `ORDER BY date_added DESC`: place the row before
the first strictly older row.  The SQL `DATE` ordering of the column is
abstracted to a total order on the stored value; none of the verified
properties depend on which total order it is. -/
def insertByDate (r : AppRow) : List AppRow → List AppRow
  | [] => [r]
  | x :: xs => if strLt x.dateAdded r.dateAdded then r :: x :: xs else x :: insertByDate r xs

/-- Sort the table most-recent-first by `date_added`. -/
def sortByDateDesc (l : List AppRow) : List AppRow := l.foldr insertByDate []

/-- Semantics of the handler's existing-URL query:
`SELECT url FROM applicants WHERE url IS NOT NULL ORDER BY date_added DESC LIMIT 100`. -/
def existingUrls (db : DB) : List String :=
  ((sortByDateDesc (db.applicants.filter (fun r => r.url.isSome))).take 100).filterMap
    (fun r => r.url)

/-- Python truthiness of the `max_url` variable (`if max_url:`): false for
`None` and for the empty string. -/
def truthy : Option String → Bool
  | none => false
  | some s => decide (s ≠ "")

/-- Embeds the per-record insert loop of `handle_scrape_new_data`, threading
the working (uncommitted) table state and the running `max_url`.  `failsAt`
is the failure oracle for the sink: `failsAt i = true` means the sink raises
on the `i`-th `cur.execute` of the batch, aborting the loop with the
exception.  After a successful insert the loop folds the record's url
(`rec.get("url") or ""`) into `max_url` via Python string comparison. -/
def insertLoop (failsAt : Nat → Bool) :
    Nat → List Record → List AppRow → Option String →
    Except Unit (List AppRow × Option String)
  | _, [], tbl, maxUrl => .ok (tbl, maxUrl)
  | i, r :: rest, tbl, maxUrl =>
    if failsAt i then .error ()
    else
      let tbl' := insertApplicant tbl (recToRow r)
      let url := r.url.getD ""
      let maxUrl' := if strLt (maxUrl.getD "") url then some url else maxUrl
      insertLoop failsAt (i + 1) rest tbl' maxUrl'

/-- The source name the handler uses for its watermark. -/
def GRADCAFE : String := "gradcafe"

/-- Embeds `handle_scrape_new_data` from `consumer.py` as a transaction over
the durable sink state: read the watermark, read the existing-URL window,
scrape (maximum 50 pages), return after a commit that wrote nothing if the
scrape is empty, else run the insert batch and — when the final `max_url` is
truthy — the watermark upsert, all on uncommitted working state.  `.ok`
carries the state made durable by `conn.commit()`; `.error` is the re-raised
sink exception after `conn.rollback()`, leaving the durable state untouched
(the caller keeps the pre-transaction `DB`). -/
def handle_scrape_new_data (fetch : Nat → Page) (failsAt : Nat → Bool)
    (db : DB) : Except Unit DB :=
  let last_seen := getWatermark db.watermarks GRADCAFE
  let existing := existingUrls db
  let records := (scrape_new_records existing fetch 50).1
  if records.isEmpty then .ok db
  else
    match insertLoop failsAt 0 records db.applicants last_seen with
    | .error e => .error e
    | .ok (tbl, maxUrl) =>
      .ok { applicants := tbl
            watermarks :=
              if truthy maxUrl then upsertWatermark db.watermarks GRADCAFE (maxUrl.getD "")
              else db.watermarks }

/-- Durable effect of one delivery of a `scrape_new_data` task: on handler
success the committed state, on handler failure the rolled-back
(pre-transaction) state, with a flag telling which happened. -/
def runHandler (fetch : Nat → Page) (failsAt : Nat → Bool) (db : DB) : DB × Bool :=
  match handle_scrape_new_data fetch failsAt db with
  | .ok db' => (db', true)
  | .error _ => (db, false)

/-- A scan step: the remote listing it sees and the sink-failure oracle of
its transaction. -/
structure ScanStep where
  fetch : Nat → Page
  failsAt : Nat → Bool

/-- Durable sink state after a sequence of delivered `scrape_new_data`
tasks. -/
def runScans : List ScanStep → DB → DB
  | [], db => db
  | s :: rest, db => runScans rest (runHandler s.fetch s.failsAt db).1

/-- A message body that `json.loads` accepts, reduced to what `on_message`
reads from it: the `kind` field with its `msg.get("kind", "")` default
already applied.  (The payload is opaque to the dispatcher and handlers are
abstracted by the `handlerOk` oracle below.) -/
structure Msg where
  kind : String
deriving Repr, DecidableEq

/-- Terminal broker action of one `on_message` callback invocation. -/
inductive Ack where
  | acked : Ack
  | nacked : Bool → Ack
  | uncaught : String → Ack
deriving Repr, DecidableEq

/-- The keys of `TASK_MAP` in `consumer.py`. -/
def TASK_MAP_kinds : List String := ["scrape_new_data", "recompute_analytics"]

/-- Embeds `on_message` from `consumer.py`.  `body` is `none` when
`json.loads(body)` raises (malformed JSON); `handlerOk k` tells whether the
handler for kind `k` returns or raises.  Returns the terminal broker action
and the number of handler invocations.  Control flow of the source: a known
kind runs the handler, acking on return and reaching the `except` block on a
raise, where `msg` is bound, so `basic_nack(requeue=False)` executes; an
unknown kind is nacked without requeue inside the `try`.  When `json.loads`
itself raises, the `except` block first evaluates `msg.get("kind", "?")`,
but the local variable `msg` was never assigned, so that expression raises
`UnboundLocalError` before `basic_nack` is reached and the new exception
escapes the callback. -/
def on_message (body : Option Msg) (handlerOk : String → Bool) : Ack × Nat :=
  match body with
  | none => (.uncaught "UnboundLocalError", 0)
  | some msg =>
    if TASK_MAP_kinds.contains msg.kind then
      if handlerOk msg.kind then (.acked, 1) else (.nacked false, 1)
    else (.nacked false, 0)

/-- Specification-side order on optional watermark values: an absent
watermark is below everything; present values compare as Python strings.
`wmLe a b` states that the stored watermark did not regress from `a` to
`b`. -/
def wmLe : Option String → Option String → Bool
  | none, _ => true
  | some _, none => false
  | some a, some b => !(strLt b a)

/-- Binary lexicographic maximum of two Python strings. -/
def pyMax (s t : String) : String := if strLt s t then t else s

/-- Modelled from the spec (§4.4 step 2), for the corrected watermark rule:
the lexicographic maximum of the prior stored watermark (empty if absent)
and the batch's external identifiers (nulls as empty), or `none` when that
maximum is the empty string. -/
def specWatermarkValue (last_seen : Option String) (recs : List Record) : Option String :=
  let m := recs.foldl (fun acc r => pyMax acc (r.url.getD "")) (last_seen.getD "")
  if m = "" then none else some m

/-- Number of `applicants` rows carrying the external identifier `u`. -/
def countUrl (tbl : List AppRow) (u : String) : Nat :=
  (tbl.filter (fun r => r.url == some u)).length

/-- Sample header row (zero cells, skipped by the row loop). -/
def sampleHeader : Row := { tds := [], anchors := [], textStrip := "", textSpaced := "" }

/-- Sample data row linking to result 101. -/
def sampleRowA : Row :=
  { tds := ["Uni AReport", "CS PhD", "2024-01-01", "Accepted on 1 Mar"]
    anchors := ["/result/101"]
    textStrip := "Uni A CS PhD"
    textSpaced := "Fall 2024 GPA 3.50" }

/-- Sample data row linking to result 102. -/
def sampleRowB : Row :=
  { tds := ["Uni B", "History Masters", "2024-01-02", "Rejected on 2 Mar"]
    anchors := ["/result/102"]
    textStrip := "Uni B History"
    textSpaced := "GRE 320 International" }

/-- Sample data row linking to result 103. -/
def sampleRowC : Row :=
  { tds := ["Uni C", "Physics", "2024-01-03", "Interview on 3 Mar"]
    anchors := ["/result/103"]
    textStrip := "Uni C Physics"
    textSpaced := "Spring 2025 American" }

/-- Sample data row with no result anchor (null identifier). -/
def sampleRowNoUrl : Row :=
  { tds := ["Uni D", "Math PhD", "2024-01-04", "Wait listed on 4 Mar"]
    anchors := ["/nothing"]
    textStrip := "Uni D Math"
    textSpaced := "GPA 3.90" }

/-- Sample two-page listing: rows A and B on page 1, row C on page 2, then no
further tables. -/
def sampleFetchAB_C : Nat → Page := fun p =>
  if p = 1 then .table [sampleHeader, sampleRowA, sampleRowB]
  else if p = 2 then .table [sampleHeader, sampleRowC]
  else .noTable

/-- Sample one-page listing holding only row A. -/
def sampleFetchA : Nat → Page := fun p =>
  if p = 1 then .table [sampleHeader, sampleRowA] else .noTable

/-- Sample one-page listing whose only data row has a null identifier. -/
def sampleFetchNoUrl : Nat → Page := fun p =>
  if p = 1 then .table [sampleHeader, sampleRowNoUrl] else .noTable

/-- Empty sink. -/
def emptyDB : DB := { applicants := [], watermarks := [] }

/-- Sink whose stored watermark is lexicographically above every sample
record identifier (`'z' > 'h'`). -/
def cexDB : DB := { applicants := [], watermarks := [(GRADCAFE, "zzz")] }

/-- Failure oracle of a sink that never raises. -/
def noFail : Nat → Bool := fun _ => false

/-- Failure oracle of a sink that raises on every insert. -/
def allFail : Nat → Bool := fun _ => true

/-- The full identifier row A's anchor resolves to. -/
def urlA : String := "https://www.thegradcafe.com/result/101"

/-- Sample applicants row already holding `urlA`. -/
def sampleApp : AppRow :=
  { program := "CS PhD", university := "Uni A", degree := "PhD", status := "Accepted"
    term := none, usInt := none, comments := "", decisionDate := some "1 Mar"
    dateAdded := "2024-01-01", url := some urlA, gpa := none, gre := none
    greV := none, greAW := none, llmProgram := none, llmUniversity := none }

/-- Sink already holding row A's identifier. -/
def dbWithA : DB := { applicants := [sampleApp], watermarks := [] }

/-- Two characters neither of which is below the other are equal. -/
theorem char_eq_of_not_lt {c d : Char} (h1 : ¬c < d) (h2 : ¬d < c) : c = d :=
  le_antisymm (le_of_not_lt h2) (le_of_not_lt h1)

/-- Python string comparison is irreflexive. -/
theorem pyLt_irrefl : ∀ l : List Char, pyLt l l = false
  | [] => rfl
  | c :: cs => by simp [pyLt, lt_irrefl, pyLt_irrefl cs]

/-- Python string comparison is asymmetric. -/
theorem pyLt_asymm : ∀ a b : List Char, pyLt a b = true → pyLt b a = false
  | [], [], h => by simp [pyLt] at h
  | [], _ :: _, _ => by simp [pyLt]
  | _ :: _, [], h => by simp [pyLt] at h
  | c :: cs, d :: ds, h => by
    simp only [pyLt] at h ⊢
    by_cases h1 : c < d
    · have h2 : ¬d < c := lt_asymm h1
      simp [h1, h2]
    · by_cases h2 : d < c
      · simp [h1, h2] at h
      · have : c = d := char_eq_of_not_lt h1 h2
        subst this
        simp only [lt_irrefl, if_false] at h ⊢
        exact pyLt_asymm cs ds h

/-- Python string comparison is transitive. -/
theorem pyLt_trans : ∀ a b c : List Char,
    pyLt a b = true → pyLt b c = true → pyLt a c = true
  | [], [], _, h1, _ => by simp [pyLt] at h1
  | [], _ :: _, [], _, h2 => by simp [pyLt] at h2
  | [], _ :: _, _ :: _, _, _ => by simp [pyLt]
  | _ :: _, [], _, h1, _ => by simp [pyLt] at h1
  | _ :: _, _ :: _, [], _, h2 => by simp [pyLt] at h2
  | a :: xs, b :: ys, c :: zs, h1, h2 => by
    simp only [pyLt] at h1 h2 ⊢
    by_cases hab : a < b
    · by_cases hbc : b < c
      · simp [lt_trans hab hbc]
      · by_cases hcb : c < b
        · simp [hbc, hcb] at h2
        · have : b = c := char_eq_of_not_lt hbc hcb
          subst this
          simp [hab]
    · by_cases hba : b < a
      · simp [hab, hba] at h1
      · have : a = b := char_eq_of_not_lt hab hba
        subst this
        simp only [lt_irrefl, if_false] at h1 h2 ⊢
        by_cases hac : a < c
        · simp [hac]
        · by_cases hca : c < a
          · simp [hac, hca] at h2
          · have : a = c := char_eq_of_not_lt hac hca
            subst this
            simp only [lt_irrefl, if_false] at h2 ⊢
            exact pyLt_trans xs ys zs h1 h2

/-- Python string comparison is connected: two mutually non-smaller lists are
equal. -/
theorem pyLt_connex : ∀ a b : List Char,
    pyLt a b = false → pyLt b a = false → a = b
  | [], [], _, _ => rfl
  | [], _ :: _, h1, _ => by simp [pyLt] at h1
  | _ :: _, [], _, h2 => by simp [pyLt] at h2
  | c :: cs, d :: ds, h1, h2 => by
    simp only [pyLt] at h1 h2
    by_cases hcd : c < d
    · simp [hcd] at h1
    · by_cases hdc : d < c
      · simp [hcd, hdc] at h2
      · have : c = d := char_eq_of_not_lt hcd hdc
        subst this
        simp only [lt_irrefl, if_false] at h1 h2
        rw [pyLt_connex cs ds h1 h2]

/-- Nothing is strictly below the empty string. -/
theorem pyLt_nil_false : ∀ l : List Char, pyLt l [] = false
  | [] => rfl
  | _ :: _ => rfl

/-- `wmLe` is reflexive. -/
theorem wmLe_refl : ∀ a : Option String, wmLe a a = true
  | none => rfl
  | some s => by simp [wmLe, strLt, pyLt_irrefl]

/-- `wmLe` is transitive. -/
theorem wmLe_trans : ∀ a b c : Option String,
    wmLe a b = true → wmLe b c = true → wmLe a c = true
  | none, _, _, _, _ => rfl
  | some _, none, _, h1, _ => by simp [wmLe] at h1
  | some _, some _, none, _, h2 => by simp [wmLe] at h2
  | some a, some b, some c, h1, h2 => by
    simp only [wmLe, strLt, Bool.not_eq_true'] at h1 h2 ⊢
    by_cases hca : pyLt c.data a.data = true
    · by_cases hbc : pyLt b.data c.data = true
      · exact absurd (pyLt_trans _ _ _ hbc hca) (by simp [h1])
      · have : b.data = c.data := pyLt_connex b.data c.data (by simpa using hbc) h2
        rw [← this] at hca
        simp [hca] at h1
    · simpa using hca

/-- A watermark bumped to a larger value does not regress. -/
theorem wmLe_of_strLt {a u : String} (h : strLt a u = true) :
    wmLe (some a) (some u) = true := by
  simp [wmLe, strLt, pyLt_asymm a.data u.data h]

/-- No url triggers the stop test against an empty existing set. -/
theorem urlSeen_nil : ∀ u : Option String, urlSeen u [] = false
  | none => rfl
  | some _ => by simp [urlSeen, List.contains]

/-- The record built for a row carries exactly the url the stop test
inspected. -/
theorem buildRecord_url (rows : List Row) (i : Nat) (row : Row) :
    (buildRecord rows i row).url = extract_entry_url row.anchors := rfl

/-- Characterization of the row loop: against an existing set `S` it yields
the longest prefix of the unstopped parse that precedes the first seen
record, and its stop flag says whether a seen record exists. -/
theorem processRowsAux_spec (S : List String) (rows : List Row) :
    ∀ (rest : List Row) (i : Nat),
      processRowsAux S rows i rest =
        ((processRowsAux [] rows i rest).1.take
            ((processRowsAux [] rows i rest).1.findIdx (recSeen S)),
          decide ((processRowsAux [] rows i rest).1.findIdx (recSeen S) <
            (processRowsAux [] rows i rest).1.length))
  | [], _ => by simp [processRowsAux]
  | row :: rest, i => by
    have hnil : urlSeen (extract_entry_url row.anchors) [] = false := urlSeen_nil _
    by_cases h4 : row.tds.length < 4
    · simpa only [processRowsAux, if_pos h4] using processRowsAux_spec S rows rest (i + 1)
    · by_cases hs : urlSeen (extract_entry_url row.anchors) S = true
      · have hhead : recSeen S (buildRecord rows i row) = true := by
          simpa [recSeen, buildRecord_url] using hs
        simp [processRowsAux, h4, hs, hnil, List.findIdx_cons, hhead]
      · have hhead : recSeen S (buildRecord rows i row) = false := by
          simpa [recSeen, buildRecord_url] using hs
        have IH := processRowsAux_spec S rows rest (i + 1)
        simp [processRowsAux, h4, hs, hnil, List.findIdx_cons, hhead, IH,
          Nat.succ_lt_succ_iff]

/-- Record component of the row-loop characterization. -/
theorem processRowsFrom_records (S : List String) (rows : List Row) (i : Nat) :
    (processRowsFrom S rows i).1 =
      (processRowsFrom [] rows i).1.take
        ((processRowsFrom [] rows i).1.findIdx (recSeen S)) := by
  simp [processRowsFrom, processRowsAux_spec S rows]

/-- Stop-flag component of the row-loop characterization. -/
theorem processRowsFrom_stop (S : List String) (rows : List Row) (i : Nat) :
    (processRowsFrom S rows i).2 = true ↔
      (processRowsFrom [] rows i).1.findIdx (recSeen S) <
        (processRowsFrom [] rows i).1.length := by
  simp [processRowsFrom, processRowsAux_spec S rows]

/-- A predicate false on every element is first satisfied only at the
length. -/
theorem findIdx_eq_length_of_none {α : Type} {p : α → Bool} :
    ∀ l : List α, (∀ x ∈ l, p x = false) → l.findIdx p = l.length
  | [], _ => rfl
  | a :: l, h => by
    have ha : p a = false := h a (by simp)
    simp [List.findIdx_cons, ha, findIdx_eq_length_of_none l (fun x hx => h x (by simp [hx]))]

/-- When the first satisfying index of an appended list lies past the first
part, the first part is clean and the index decomposes additively. -/
theorem findIdx_append_of_ge {α : Type} {p : α → Bool} :
    ∀ l₁ l₂ : List α, l₁.length ≤ (l₁ ++ l₂).findIdx p →
      l₁.findIdx p = l₁.length ∧ (l₁ ++ l₂).findIdx p = l₁.length + l₂.findIdx p
  | [], l₂, _ => by simp
  | a :: l₁, l₂, h => by
    by_cases ha : p a = true
    · simp [List.findIdx_cons, ha] at h
    · have h' : l₁.length ≤ (l₁ ++ l₂).findIdx p := by
        simpa [List.findIdx_cons, ha, Nat.succ_le_succ_iff] using h
      have IH := findIdx_append_of_ge l₁ l₂ h'
      simp [List.findIdx_cons, ha, IH.1, IH.2, Nat.succ_add]

/-- A row loop over records none of which are in the existing set neither
stops nor drops records. -/
theorem processRowsFrom_clean (S : List String) (rows : List Row)
    (h : ∀ r ∈ (processRowsFrom [] rows 1).1, recSeen S r = false) :
    processRowsFrom S rows 1 = ((processRowsFrom [] rows 1).1, false) := by
  have hidx := findIdx_eq_length_of_none (processRowsFrom [] rows 1).1 h
  have h1 := processRowsFrom_records S rows 1
  have h2 := processRowsFrom_stop S rows 1
  refine Prod.ext ?_ ?_
  · simpa [hidx] using h1
  · have : ¬ (processRowsFrom S rows 1).2 = true := by
      rw [h2, hidx]
      exact lt_irrefl _
    simpa using this

/-- Variant of the clean-page lemma keyed on the first-seen index. -/
theorem processRowsFrom_clean_idx (S : List String) (rows : List Row)
    (hidx : (processRowsFrom [] rows 1).1.findIdx (recSeen S) =
      (processRowsFrom [] rows 1).1.length) :
    processRowsFrom S rows 1 = ((processRowsFrom [] rows 1).1, false) := by
  refine Prod.ext ?_ ?_
  · simpa [hidx] using processRowsFrom_records S rows 1
  · have : ¬ (processRowsFrom S rows 1).2 = true := by
      rw [processRowsFrom_stop, hidx]
      exact lt_irrefl _
    simpa using this

/-- Scan behaviour when no page's records match the existing set: the loop
performs at most `fuel` fetches and returns the unstopped records of exactly
the pages it fetched. -/
theorem scanFrom_nomatch (S : List String) (fetch : Nat → Page)
    (hnm : ∀ j rows, fetch j = Page.table rows →
      ∀ r ∈ pageRecs (Page.table rows), recSeen S r = false) :
    ∀ (fuel start : Nat),
      (scanFrom S fetch start fuel).2 ≤ fuel ∧
        (scanFrom S fetch start fuel).1 =
          listingRecsFrom fetch start (scanFrom S fetch start fuel).2
  | 0, start => by simp [scanFrom, listingRecsFrom]
  | fuel + 1, start => by
    cases hf : fetch start with
    | fetchFail => simp [scanFrom, hf, listingRecsFrom, pageRecs]
    | noTable => simp [scanFrom, hf, listingRecsFrom, pageRecs]
    | table rows =>
      have hclean := processRowsFrom_clean S rows (hnm start rows hf)
      have IH := scanFrom_nomatch S fetch hnm fuel (start + 1)
      refine ⟨?_, ?_⟩
      · simp only [scanFrom, hf, hclean]
        exact Nat.succ_le_succ IH.1
      · simp only [scanFrom, hf, hclean, listingRecsFrom, pageRecs]
        simp [IH.2]

/-- Scan behaviour when the first seen record lies on page `start + q` (the
`q + 1`-th fetched page): all of `q + 1` pages are fetched and the scan
returns exactly the unstopped listing records before the first seen one. -/
theorem scanFrom_stop (S : List String) (fetch : Nat → Page) :
    ∀ (q start fuel : Nat),
      q + 1 ≤ fuel →
      (∀ j, start ≤ j → j < start + (q + 1) → (fetch j).isTable = true) →
      (listingRecsFrom fetch start q).length ≤
        (listingRecsFrom fetch start (q + 1)).findIdx (recSeen S) →
      (listingRecsFrom fetch start (q + 1)).findIdx (recSeen S) <
        (listingRecsFrom fetch start (q + 1)).length →
      scanFrom S fetch start fuel =
        ((listingRecsFrom fetch start (q + 1)).take
            ((listingRecsFrom fetch start (q + 1)).findIdx (recSeen S)),
          q + 1)
  | 0, start, fuel, hfuel, htab, _, hseen => by
    obtain ⟨f, rfl⟩ : ∃ f, fuel = f + 1 := ⟨fuel - 1, by omega⟩
    have htab0 : (fetch start).isTable = true := htab start (le_refl _) (by omega)
    cases hf : fetch start with
    | fetchFail => rw [hf] at htab0; simp [Page.isTable] at htab0
    | noTable => rw [hf] at htab0; simp [Page.isTable] at htab0
    | table rows =>
      have hL : listingRecsFrom fetch start 1 = (processRowsFrom [] rows 1).1 := by
        simp [listingRecsFrom, pageRecs, hf]
      rw [hL] at hseen ⊢
      have hstop : (processRowsFrom S rows 1).2 = true :=
        (processRowsFrom_stop S rows 1).mpr hseen
      have hrecs := processRowsFrom_records S rows 1
      simp only [scanFrom, hf, hstop]
      simp [hrecs]
  | q + 1, start, fuel, hfuel, htab, hlast, hseen => by
    obtain ⟨f, rfl⟩ : ∃ f, fuel = f + 1 := ⟨fuel - 1, by omega⟩
    have htab0 : (fetch start).isTable = true := htab start (le_refl _) (by omega)
    cases hf : fetch start with
    | fetchFail => rw [hf] at htab0; simp [Page.isTable] at htab0
    | noTable => rw [hf] at htab0; simp [Page.isTable] at htab0
    | table rows =>
      have hsplit : listingRecsFrom fetch start (q + 1 + 1) =
          (processRowsFrom [] rows 1).1 ++ listingRecsFrom fetch (start + 1) (q + 1) := by
        simp [listingRecsFrom, pageRecs, hf]
      have hsplit' : listingRecsFrom fetch start (q + 1) =
          (processRowsFrom [] rows 1).1 ++ listingRecsFrom fetch (start + 1) q := by
        simp [listingRecsFrom, pageRecs, hf]
      rw [hsplit] at hseen hlast ⊢
      rw [hsplit'] at hlast
      have hge : (processRowsFrom [] rows 1).1.length ≤
          ((processRowsFrom [] rows 1).1 ++
            listingRecsFrom fetch (start + 1) (q + 1)).findIdx (recSeen S) := by
        rw [List.length_append] at hlast
        omega
      obtain ⟨hcleanIdx, hdecomp⟩ :=
        findIdx_append_of_ge (processRowsFrom [] rows 1).1
          (listingRecsFrom fetch (start + 1) (q + 1)) hge
      have hclean := processRowsFrom_clean_idx S rows hcleanIdx
      have hlast2 : (listingRecsFrom fetch (start + 1) q).length ≤
          (listingRecsFrom fetch (start + 1) (q + 1)).findIdx (recSeen S) := by
        rw [hdecomp, List.length_append] at hlast
        omega
      have hseen2 : (listingRecsFrom fetch (start + 1) (q + 1)).findIdx (recSeen S) <
          (listingRecsFrom fetch (start + 1) (q + 1)).length := by
        rw [hdecomp, List.length_append] at hseen
        omega
      have IH := scanFrom_stop S fetch q (start + 1) f (by omega)
        (fun j h1 h2 => htab j (by omega) (by omega)) hlast2 hseen2
      simp only [scanFrom, hf, hclean]
      rw [IH, hdecomp, List.take_append]
      simp

/-- Reading back an upserted watermark yields the written value. -/
theorem getWatermark_upsert : ∀ (wms : List (String × String)) (src v : String),
    getWatermark (upsertWatermark wms src v) src = some v
  | [], src, v => by simp [upsertWatermark, getWatermark]
  | p :: rest, src, v => by
    by_cases h : p.1 == src
    · simp [upsertWatermark, h, getWatermark, List.find?_cons]
    · simpa [upsertWatermark, h, getWatermark, List.find?_cons]
        using getWatermark_upsert rest src v

/-- The insert loop raises as soon as the sink raises on some record of the
batch. -/
theorem insertLoop_err (failsAt : Nat → Bool) :
    ∀ (recs : List Record) (i : Nat) (tbl : List AppRow) (m : Option String),
      (∃ j, j < recs.length ∧ failsAt (i + j) = true) →
      insertLoop failsAt i recs tbl m = .error ()
  | [], _, _, _, h => by simp at h
  | r :: rest, i, tbl, m, h => by
    by_cases hi : failsAt i = true
    · simp [insertLoop, hi]
    · obtain ⟨j, hj, hf⟩ := h
      obtain ⟨j', rfl⟩ : ∃ j', j = j' + 1 := by
        rcases j with _ | j'
        · rw [Nat.add_zero] at hf
          exact absurd hf hi
        · exact ⟨j', rfl⟩
      simp only [insertLoop, Bool.not_eq_true] at hi ⊢
      rw [hi]
      simp only [Bool.false_eq_true, if_false]
      refine insertLoop_err failsAt rest (i + 1) _ _
        ⟨j', by simp only [List.length_cons] at hj; omega, ?_⟩
      have harith : i + 1 + j' = i + (j' + 1) := by omega
      rw [harith]
      exact hf

/-- The running `max_url` never regresses across the insert loop. -/
theorem insertLoop_wmLe (failsAt : Nat → Bool) :
    ∀ (recs : List Record) (i : Nat) (tbl tbl' : List AppRow) (m m' : Option String),
      insertLoop failsAt i recs tbl m = .ok (tbl', m') → wmLe m m' = true
  | [], i, tbl, tbl', m, m', h => by
    simp only [insertLoop, Except.ok.injEq, Prod.mk.injEq] at h
    rw [← h.2]
    exact wmLe_refl m
  | r :: rest, i, tbl, tbl', m, m', h => by
    by_cases hi : failsAt i = true
    · simp [insertLoop, hi] at h
    · simp only [insertLoop, Bool.not_eq_true] at hi h
      rw [hi] at h
      simp only [Bool.false_eq_true, if_false] at h
      have h2 := insertLoop_wmLe failsAt rest (i + 1) _ _ _ _ h
      refine wmLe_trans m _ m' ?_ h2
      by_cases hcmp : strLt (m.getD "") (r.url.getD "") = true
      · rw [if_pos hcmp]
        cases m with
        | none => rfl
        | some a => exact wmLe_of_strLt hcmp
      · rw [if_neg hcmp]
        exact wmLe_refl m

/-- Python truthiness of an optional string agrees with non-emptiness of its
empty-string default. -/
theorem truthy_getD : ∀ x : Option String, truthy x = decide (x.getD "" ≠ "")
  | none => rfl
  | some _ => rfl

/-- The final `max_url` of a successful insert loop is the lexicographic fold
of the record identifiers over the starting value. -/
theorem insertLoop_max (failsAt : Nat → Bool) :
    ∀ (recs : List Record) (i : Nat) (tbl tbl' : List AppRow) (m m' : Option String),
      insertLoop failsAt i recs tbl m = .ok (tbl', m') →
      m'.getD "" = recs.foldl (fun acc r => pyMax acc (r.url.getD "")) (m.getD "")
  | [], i, tbl, tbl', m, m', h => by
    simp only [insertLoop, Except.ok.injEq, Prod.mk.injEq] at h
    rw [← h.2]
    simp [List.foldl]
  | r :: rest, i, tbl, tbl', m, m', h => by
    by_cases hi : failsAt i = true
    · simp [insertLoop, hi] at h
    · simp only [insertLoop, Bool.not_eq_true] at hi h
      rw [hi] at h
      simp only [Bool.false_eq_true, if_false] at h
      have IH := insertLoop_max failsAt rest (i + 1) _ _ _ _ h
      rw [IH]
      have hstep :
          ((if strLt (m.getD "") (r.url.getD "") then some (r.url.getD "") else m).getD "")
            = pyMax (m.getD "") (r.url.getD "") := by
        by_cases hcmp : strLt (m.getD "") (r.url.getD "") = true <;>
          simp [pyMax, hcmp]
      rw [List.foldl_cons, hstep]

/-- Truthy `max_url` values are `some` of a non-empty string. -/
theorem truthy_some {x : Option String} (h : truthy x = true) :
    x = some (x.getD "") := by
  cases x with
  | none => simp [truthy] at h
  | some s => rfl

/-- One delivered scrape task never regresses the stored watermark. -/
theorem runHandler_wmLe (fetch : Nat → Page) (failsAt : Nat → Bool) (db : DB) :
    wmLe (getWatermark db.watermarks GRADCAFE)
      (getWatermark (runHandler fetch failsAt db).1.watermarks GRADCAFE) = true := by
  unfold runHandler handle_scrape_new_data
  by_cases hemp : ((scrape_new_records (existingUrls db) fetch 50).1).isEmpty
  · simp [hemp, wmLe_refl]
  · simp only [hemp, Bool.false_eq_true, if_false]
    cases hloop : insertLoop failsAt 0 ((scrape_new_records (existingUrls db) fetch 50).1)
        db.applicants (getWatermark db.watermarks GRADCAFE) with
    | error e => simp [wmLe_refl]
    | ok pr =>
      obtain ⟨tbl, maxUrl⟩ := pr
      have hle := insertLoop_wmLe failsAt _ 0 _ _ _ _ hloop
      by_cases ht : truthy maxUrl = true
      · simp only [ht, if_true, getWatermark_upsert]
        rw [truthy_some ht] at hle
        exact hle
      · simp only [ht, Bool.false_eq_true, if_false]
        exact wmLe_refl _

/-- A scan sequence splits at an append. -/
theorem runScans_append : ∀ (l₁ l₂ : List ScanStep) (db : DB),
    runScans (l₁ ++ l₂) db = runScans l₂ (runScans l₁ db)
  | [], _, _ => rfl
  | s :: l₁, l₂, db => by simp [runScans, runScans_append l₁ l₂]

/-- C1: running the conflict-tolerant ingestion insert twice with the same
Candidate Record (same non-null external identifier, not yet in the sink)
leaves exactly one row with that identifier, and the repeated insert is a
no-op on the table rather than an error. -/
theorem C1_idempotent_insert (tbl : List AppRow) (row : AppRow) (u : String)
    (hu : row.url = some u) (h0 : countUrl tbl u = 0) :
    insertApplicant (insertApplicant tbl row) row = insertApplicant tbl row ∧
      countUrl (insertApplicant (insertApplicant tbl row) row) u = 1 := by
  have hany : tbl.any (fun r => r.url == some u) = false := by
    rw [List.any_eq_false]
    intro r hr hp
    have hmem : r ∈ tbl.filter (fun r => r.url == some u) := List.mem_filter.mpr ⟨hr, hp⟩
    have hpos : 0 < countUrl tbl u := List.length_pos.mpr (List.ne_nil_of_mem hmem)
    omega
  have h1 : insertApplicant tbl row = tbl ++ [row] := by
    simp [insertApplicant, hu, hany]
  have hany2 : (tbl ++ [row]).any (fun r => r.url == some u) = true := by
    simp [List.any_append, hu]
  have h2 : insertApplicant (tbl ++ [row]) row = tbl ++ [row] := by
    simp [insertApplicant, hu, hany2]
  refine ⟨by rw [h1, h2], ?_⟩
  rw [h1, h2]
  unfold countUrl at h0 ⊢
  simp [List.filter_append, hu, h0]

/-- Witness for C1 at the empty table and the sample record. -/
theorem C1_idempotent_insert_witness :
    insertApplicant (insertApplicant [] sampleApp) sampleApp = insertApplicant [] sampleApp ∧
      countUrl (insertApplicant (insertApplicant [] sampleApp) sampleApp) urlA = 1 :=
  C1_idempotent_insert [] sampleApp urlA rfl rfl

/-- C2: if the sink raises on any insert of a non-empty scraped batch, the
whole ingestion transaction rolls back: the durable sink state afterwards is
exactly the pre-transaction state (no partial inserts, no watermark change)
and the handler reports failure. -/
theorem C2_transaction_rollback (fetch : Nat → Page) (failsAt : Nat → Bool) (db : DB)
    (j : Nat)
    (hj : j < ((scrape_new_records (existingUrls db) fetch 50).1).length)
    (hf : failsAt j = true) :
    runHandler fetch failsAt db = (db, false) := by
  have hne : ((scrape_new_records (existingUrls db) fetch 50).1).isEmpty = false := by
    cases hL : (scrape_new_records (existingUrls db) fetch 50).1 with
    | nil => rw [hL] at hj; simp at hj
    | cons a l => rfl
  have herr := insertLoop_err failsAt _ 0 db.applicants
    (getWatermark db.watermarks GRADCAFE) ⟨j, hj, by simpa using hf⟩
  unfold runHandler handle_scrape_new_data
  simp only [hne, Bool.false_eq_true, if_false, herr]

/-- Witness for C2: an always-raising sink leaves the empty sink unchanged. -/
theorem C2_transaction_rollback_witness :
    runHandler sampleFetchA allFail emptyDB = (emptyDB, false) :=
  C2_transaction_rollback sampleFetchA allFail emptyDB 0 (by decide) rfl

/-- C10: when the scrape yields zero records the handler commits and returns
with the applicants and watermark tables both exactly as before. -/
theorem C10_empty_scrape_no_effect (fetch : Nat → Page) (failsAt : Nat → Bool) (db : DB)
    (h : (scrape_new_records (existingUrls db) fetch 50).1 = []) :
    runHandler fetch failsAt db = (db, true) := by
  unfold runHandler handle_scrape_new_data
  simp [h]

/-- Witness for C10 on a listing with no tables. -/
theorem C10_empty_scrape_no_effect_witness :
    runHandler (fun _ => Page.noTable) noFail emptyDB = (emptyDB, true) :=
  C10_empty_scrape_no_effect (fun _ => Page.noTable) noFail emptyDB (by decide)

/-- C6: on a malformed (non-JSON) body the consumer callback does invoke no
handler, but it does not negatively acknowledge the message: the `except`
block's logging line reads the never-assigned local `msg`, so the callback
escapes with `UnboundLocalError` before `basic_nack` runs — the claimed
permanent reject never happens. -/
theorem C6_malformed_reject_divergence :
    on_message none (fun _ => true) = (Ack.uncaught "UnboundLocalError", 0) ∧
      (on_message none (fun _ => true)).1 ≠ Ack.nacked false :=
  ⟨rfl, by decide⟩

/-- C7: on a row whose only anchor targets `/result/123`, the consumer's
extractor yields the origin-prefixed identifier as specified, but
`incremental_scraper._extract_entry_url` yields `None`: its pattern
`r"/result/\\d+"` requires a literal backslash in the href, which no real
listing anchor contains. -/
theorem C7_extractor_divergence :
    extract_entry_url ["/result/123"] = some "https://www.thegradcafe.com/result/123" ∧
      extract_entry_url_scraper ["/result/123"] = none :=
  ⟨by decide, by decide⟩

/-- C4: across any sequence of delivered scrape transactions, the stored
watermark for the source after scan `N + 1` is lexicographically at least
its value after scan `N` (an absent watermark counts as bottom). -/
theorem C4_watermark_monotone (steps : List ScanStep) (db : DB) (N : Nat)
    (hN : N < steps.length) :
    wmLe (getWatermark (runScans (steps.take N) db).watermarks GRADCAFE)
      (getWatermark (runScans (steps.take (N + 1)) db).watermarks GRADCAFE) = true := by
  rw [List.take_succ, List.getElem?_eq_getElem hN, runScans_append]
  simp only [Option.toList_some, runScans]
  exact runHandler_wmLe _ _ _

/-- Witness for C4 on a one-scan sequence over the empty sink. -/
theorem C4_watermark_monotone_witness :
    wmLe
      (getWatermark
        (runScans (([⟨sampleFetchA, noFail⟩] : List ScanStep).take 0) emptyDB).watermarks
        GRADCAFE)
      (getWatermark
        (runScans (([⟨sampleFetchA, noFail⟩] : List ScanStep).take 1) emptyDB).watermarks
        GRADCAFE) = true :=
  C4_watermark_monotone [⟨sampleFetchA, noFail⟩] emptyDB 0 (by decide)

/-- C5 counterexample: with stored watermark `"zzz"` and a successful
ingestion of one record whose identifier is `urlA`, the batch's maximum
identifier across inserted records is `urlA`, yet the transaction leaves the
watermark at `"zzz"` — the code folds the prior watermark into the maximum,
so the claimed value (the maximum across the inserted records) is not what
is written. -/
theorem C5_watermark_counterexample :
    ((scrape_new_records (existingUrls cexDB) sampleFetchA 50).1.filterMap
        (fun r => r.url)) = [urlA] ∧
      (runHandler sampleFetchA noFail cexDB).2 = true ∧
      getWatermark ((runHandler sampleFetchA noFail cexDB).1).watermarks GRADCAFE =
        some "zzz" ∧
      some "zzz" ≠ some urlA :=
  ⟨by decide, by decide, by decide, by decide⟩

/-- C5 (amended): in a committed ingestion transaction the watermark row for
the source holds `some v` exactly when the lexicographic maximum `v` of the
prior watermark value (empty if absent) and the batch's identifiers (nulls
as empty) is non-empty, and is untouched when that maximum is empty. -/
theorem C5_watermark_value (fetch : Nat → Page) (failsAt : Nat → Bool) (db db' : DB)
    (hok : handle_scrape_new_data fetch failsAt db = .ok db') :
    (∀ v, specWatermarkValue (getWatermark db.watermarks GRADCAFE)
        ((scrape_new_records (existingUrls db) fetch 50).1) = some v →
        getWatermark db'.watermarks GRADCAFE = some v) ∧
      (specWatermarkValue (getWatermark db.watermarks GRADCAFE)
          ((scrape_new_records (existingUrls db) fetch 50).1) = none →
        getWatermark db'.watermarks GRADCAFE = getWatermark db.watermarks GRADCAFE) := by
  unfold handle_scrape_new_data at hok
  by_cases hemp : ((scrape_new_records (existingUrls db) fetch 50).1).isEmpty
  · have hrecs : (scrape_new_records (existingUrls db) fetch 50).1 = [] := by
      simpa [List.isEmpty_iff] using hemp
    simp only [hemp, if_true, Except.ok.injEq] at hok
    subst hok
    rw [hrecs]
    unfold specWatermarkValue
    simp only [List.foldl_nil]
    constructor
    · intro v hv
      cases hwm : getWatermark db.watermarks GRADCAFE with
      | none => rw [hwm] at hv; simp at hv
      | some s =>
        rw [hwm] at hv
        by_cases hs : s = ""
        · simp [hs] at hv
        · simp [hs] at hv
          exact congrArg some hv
    · intro _
      trivial
  · simp only [hemp, Bool.false_eq_true, if_false] at hok
    cases hloop : insertLoop failsAt 0 ((scrape_new_records (existingUrls db) fetch 50).1)
        db.applicants (getWatermark db.watermarks GRADCAFE) with
    | error e => rw [hloop] at hok; simp at hok
    | ok pr =>
      obtain ⟨tbl, maxUrl⟩ := pr
      rw [hloop] at hok
      simp only [Except.ok.injEq] at hok
      subst hok
      have hmax := insertLoop_max failsAt _ 0 _ _ _ _ hloop
      unfold specWatermarkValue
      simp only [← hmax]
      constructor
      · intro v hv
        by_cases hz : maxUrl.getD "" = ""
        · simp [hz] at hv
        · simp only [hz, if_false] at hv
          have ht : truthy maxUrl = true := by
            rw [truthy_getD]
            simpa using hz
          simp only [ht, if_true, getWatermark_upsert]
          simpa using hv
      · intro hv
        by_cases hz : maxUrl.getD "" = ""
        · have ht : truthy maxUrl = false := by
            rw [truthy_getD]
            simpa using hz
          simp [ht]
        · simp [hz] at hv

/-- Witness for C5 (amended) on the sample listing over the high-watermark
sink. -/
theorem C5_watermark_value_witness :
    (∀ v, specWatermarkValue (getWatermark cexDB.watermarks GRADCAFE)
        ((scrape_new_records (existingUrls cexDB) sampleFetchA 50).1) = some v →
        getWatermark ((runHandler sampleFetchA noFail cexDB).1).watermarks GRADCAFE
          = some v) ∧
      (specWatermarkValue (getWatermark cexDB.watermarks GRADCAFE)
          ((scrape_new_records (existingUrls cexDB) sampleFetchA 50).1) = none →
        getWatermark ((runHandler sampleFetchA noFail cexDB).1).watermarks GRADCAFE =
          getWatermark cexDB.watermarks GRADCAFE) :=
  C5_watermark_value sampleFetchA noFail cexDB _ rfl

/-- C8: against an existing-identifier set matching no scraped record, the
Scan Controller performs at most `max_pages` fetches and returns exactly the
records of the pages it fetched, in listing order. -/
theorem C8_page_cap (S : List String) (fetch : Nat → Page) (max_pages : Nat)
    (hnm : ∀ j rows, fetch j = Page.table rows →
      ∀ r ∈ pageRecs (Page.table rows), recSeen S r = false) :
    (scrape_new_records S fetch max_pages).2 ≤ max_pages ∧
      (scrape_new_records S fetch max_pages).1 =
        listingRecs fetch (scrape_new_records S fetch max_pages).2 :=
  scanFrom_nomatch S fetch hnm max_pages 1

/-- Witness for C8 with the empty existing set over the one-page sample
listing. -/
theorem C8_page_cap_witness :
    (scrape_new_records [] sampleFetchA 50).2 ≤ 50 ∧
      (scrape_new_records [] sampleFetchA 50).1 =
        listingRecs sampleFetchA (scrape_new_records [] sampleFetchA 50).2 :=
  C8_page_cap [] sampleFetchA 50 (fun _ _ _ r _ => urlSeen_nil r.url)

/-- C3: when the existing-identifier set first matches the listing at the
record whose (0-based) first-seen index lies on page `pstar` (all earlier
pages clean and tabled, `pstar` within the page cap), the Scan Controller
returns exactly the listing records before that position — the positions
`1 .. k - 1` prefix — and fetches exactly `pstar` pages, none beyond the
page containing the seen record. -/
theorem C3_stop_on_seen (S : List String) (fetch : Nat → Page) (pstar max_pages : Nat)
    (hp : 1 ≤ pstar) (hcap : pstar ≤ max_pages)
    (htab : ∀ j, 1 ≤ j → j ≤ pstar → (fetch j).isTable = true)
    (hlast : (listingRecs fetch (pstar - 1)).length ≤
      (listingRecs fetch pstar).findIdx (recSeen S))
    (hseen : (listingRecs fetch pstar).findIdx (recSeen S) <
      (listingRecs fetch pstar).length) :
    scrape_new_records S fetch max_pages =
      ((listingRecs fetch pstar).take ((listingRecs fetch pstar).findIdx (recSeen S)),
        pstar) := by
  obtain ⟨q, rfl⟩ : ∃ q, pstar = q + 1 := ⟨pstar - 1, by omega⟩
  have hq : q + 1 - 1 = q := by omega
  rw [hq] at hlast
  exact scanFrom_stop S fetch q 1 max_pages hcap
    (fun j h1 h2 => htab j h1 (by omega)) hlast hseen

/-- Witness for C3 on the two-page sample listing with page 2's record
already known. -/
theorem C3_stop_on_seen_witness :
    scrape_new_records ["https://www.thegradcafe.com/result/103"] sampleFetchAB_C 50 =
      ((listingRecs sampleFetchAB_C 2).take
          ((listingRecs sampleFetchAB_C 2).findIdx
            (recSeen ["https://www.thegradcafe.com/result/103"])),
        2) :=
  C3_stop_on_seen ["https://www.thegradcafe.com/result/103"] sampleFetchAB_C 2 50
    (by decide) (by decide)
    (by
      intro j h1 h2
      interval_cases j <;> decide)
    (by decide) (by decide)

/-- C9: the existing-identifier set the handler passes to the scraper holds
at most 100 identifiers, and whenever the row loop run against it stops, the
trigger is a record whose identifier belongs to that set — an identifier
outside the 100-row window cannot trigger stop-on-seen. -/
theorem C9_bounded_dedup_window (db : DB) (rows : List Row) (i : Nat)
    (hstop : (processRowsFrom (existingUrls db) rows i).2 = true) :
    (existingUrls db).length ≤ 100 ∧
      ∃ r ∈ (processRowsFrom [] rows i).1, ∃ u, r.url = some u ∧ u ∈ existingUrls db := by
  constructor
  · have h2 := List.length_filterMap_le (fun r : AppRow => r.url)
      ((sortByDateDesc (db.applicants.filter (fun r => r.url.isSome))).take 100)
    have h3 : ((sortByDateDesc (db.applicants.filter
        (fun r => r.url.isSome))).take 100).length ≤ 100 := by
      simp [List.length_take]
    unfold existingUrls
    omega
  · have hlt := (processRowsFrom_stop (existingUrls db) rows i).mp hstop
    obtain ⟨r, hmem, hr⟩ : ∃ r ∈ (processRowsFrom [] rows i).1,
        recSeen (existingUrls db) r = true :=
      ⟨_, List.get_mem _ _ hlt, List.findIdx_getElem⟩
    refine ⟨r, hmem, ?_⟩
    cases hu : r.url with
    | none => simp [recSeen, urlSeen, hu] at hr
    | some u =>
      refine ⟨u, rfl, ?_⟩
      simp [recSeen, urlSeen, hu] at hr
      exact hr.2

/-- Witness for C9 on a sink already holding row A's identifier. -/
theorem C9_bounded_dedup_window_witness :
    (existingUrls dbWithA).length ≤ 100 ∧
      ∃ r ∈ (processRowsFrom [] [sampleHeader, sampleRowA] 1).1, ∃ u, r.url = some u ∧
        u ∈ existingUrls dbWithA :=
  C9_bounded_dedup_window dbWithA [sampleHeader, sampleRowA] 1 (by decide)
